import Mathlib

/-!
Verification development for the herbabot conversational sales agent.

Shallow embedding of the TypeScript core into Lean 4:
- string utilities mirror the JavaScript string primitives used by the code
  (`toLowerCase`, `trim`, `includes`), modelled for the Basic Latin and
  Latin-1 ranges that the keyword lists and inputs use;
- the intent scorer / handoff scorer (src/engine/intent-scorer.ts);
- the session memory operations (src/engine/context-memory.ts), where the
  fire-and-forget tier-2 (Redis) writes issued by an operation are returned
  explicitly as a list, since `_persistToRedis` swallows every error;
- the rate limiter and global send queue (src/safety/rate-limiter.ts),
  the queue as a small-step transition system;
- the dialogue engine `processMessage` (src/engine/conversation-engine.ts),
  with the LLM completion abstracted as an oracle from the selected prompt
  to the produced reply, and `generateReply`'s retry loop modelled over a
  per-attempt outcome function;
- the daily check-in flow step handler (src/pipeline/checkin-flow.ts),
  with weights represented in hundredths of a kilogram so that the decimal
  parsing is exact.

Timestamps (`Date.now()`, `new Date()`) are passed explicitly as `Nat`
milliseconds wherever the source reads the clock.
-/

namespace Herbabot

/-! ### JavaScript string primitives -/

/-- JS `String.prototype.toLowerCase`, per character, modelled for the Basic
Latin (A-Z) and Latin-1 (À-Þ, excluding ×) ranges; other characters are
returned unchanged. -/
def jsToLowerChar (c : Char) : Char :=
  if 65 ≤ c.toNat ∧ c.toNat ≤ 90 then Char.ofNat (c.toNat + 32)
  else if 192 ≤ c.toNat ∧ c.toNat ≤ 222 ∧ c.toNat ≠ 215 then Char.ofNat (c.toNat + 32)
  else c

/-- JS `String.prototype.toLowerCase` on a whole string. -/
def jsToLower (s : String) : String :=
  String.mk (s.toList.map jsToLowerChar)

/-- Whitespace as used by JS `trim` and the regex class `\s` (space, tab,
line feed, vertical tab, form feed, carriage return, no-break space). -/
def jsWs (c : Char) : Bool :=
  c.toNat = 32 ∨ c.toNat = 9 ∨ c.toNat = 10 ∨ c.toNat = 11 ∨
  c.toNat = 12 ∨ c.toNat = 13 ∨ c.toNat = 160

/-- JS `String.prototype.trim` on a character list. -/
def jsTrimList (l : List Char) : List Char :=
  ((l.dropWhile jsWs).reverse.dropWhile jsWs).reverse

/-- JS `String.prototype.trim`. -/
def jsTrim (s : String) : String :=
  String.mk (jsTrimList s.toList)

/-- Does `n` occur at the start of `hay`? (helper for `subAt`). -/
def pre : List Char → List Char → Bool
  | [], _ => true
  | _ :: _, [] => false
  | a :: as, b :: bs => a == b && pre as bs

/-- Does `n` occur as a contiguous run anywhere in `hay`? -/
def subAt : List Char → List Char → Bool
  | [], n => n.isEmpty
  | hay@(_ :: t), n => pre n hay || subAt t n

/-- JS `String.prototype.includes`. -/
def jsIncludes (s sub : String) : Bool :=
  subAt s.toList sub.toList

/-! ### Intent scorer: conversation signals and handoff score
(src/engine/intent-scorer.ts) -/

/-- The `ConversationSignal` string-literal union. -/
inductive ConversationSignal
  | responded_positively
  | asked_about_price
  | asked_how_to_start
  | expressed_interest
  | shared_pain
  | accepted_commitment
  | went_cold
  | rejected
  | asked_about_business
deriving DecidableEq, BEq

/-- The string value of a signal, as stored in `LeadMemory.signals`. -/
def signalName : ConversationSignal → String
  | .responded_positively => "responded_positively"
  | .asked_about_price => "asked_about_price"
  | .asked_how_to_start => "asked_how_to_start"
  | .expressed_interest => "expressed_interest"
  | .shared_pain => "shared_pain"
  | .accepted_commitment => "accepted_commitment"
  | .went_cold => "went_cold"
  | .rejected => "rejected"
  | .asked_about_business => "asked_about_business"

/-- `SIGNAL_WEIGHTS` record. -/
def SIGNAL_WEIGHTS : ConversationSignal → Int
  | .responded_positively => 10
  | .asked_about_price => 25
  | .asked_how_to_start => 30
  | .expressed_interest => 20
  | .shared_pain => 15
  | .accepted_commitment => 25
  | .went_cold => -10
  | .rejected => -40
  | .asked_about_business => 20

/-- `calculateHandoffScore(baseScore, signals)`: fold the signal weights onto
the base score and clamp to [0, 100]. -/
def calculateHandoffScore (baseScore : Int) (signals : List ConversationSignal) : Int :=
  let signalSum := signals.foldl (fun acc s => acc + SIGNAL_WEIGHTS s) 0
  max 0 (min 100 (baseScore + signalSum))

/-- `shouldHandoff(handoffScore)`: fixed threshold of 75. -/
def shouldHandoff (handoffScore : Int) : Bool :=
  handoffScore ≥ 75

def priceTerms : List String :=
  ["quanto custa", "quanto é", "qual o valor", "preço", "valor", "custo", "investimento"]

def startTerms : List String :=
  ["como começo", "como compro", "como fazer", "como faço", "quero começar", "quero comprar"]

def interestTerms : List String :=
  ["tenho interesse", "gostei", "quero saber mais", "me conta mais", "me explica", "me manda", "quero"]

def painTerms : List String :=
  ["sofro", "sofro com", "me incomoda", "me frustra", "não consigo", "tenho dificuldade", "problema"]

def businessTerms : List String :=
  ["negócio", "ganhar dinheiro com", "como funciona o negócio", "como vender", "ser consultor", "ser consultora"]

def positiveTerms : List String :=
  ["sim", "claro", "com certeza", "ótimo", "pode ser", "tá bom", "tudo bem", "ok"]

def coldTerms : List String :=
  ["não tenho interesse", "não quero", "deixa pra lá", "não preciso", "chega"]

/-- `detectConversationSignals(message)`: substring matching of fixed phrase
lists against the lowercased message, pushing tags in source order. -/
def detectConversationSignals (message : String) : List ConversationSignal :=
  let text := jsToLower message
  let hit := fun (terms : List String) => terms.any (fun t => jsIncludes text t)
  (if hit priceTerms then [ConversationSignal.asked_about_price] else []) ++
  (if hit startTerms then [ConversationSignal.asked_how_to_start] else []) ++
  (if hit interestTerms then [ConversationSignal.expressed_interest] else []) ++
  (if hit painTerms then [ConversationSignal.shared_pain] else []) ++
  (if hit businessTerms then [ConversationSignal.asked_about_business] else []) ++
  (if hit positiveTerms then [ConversationSignal.responded_positively] else []) ++
  (if hit coldTerms then [ConversationSignal.rejected] else [])

/-! ### Rate limiter (src/safety/rate-limiter.ts) -/

/-- Per-recipient `MessageRecord`: message count and window start (ms). -/
structure RLRecord where
  count : Nat
  windowStart : Nat
deriving DecidableEq

/-- The rolling window length: one hour in milliseconds. -/
def windowMs : Nat := 60 * 60 * 1000

/-- `checkRateLimit(phone)` for one recipient: the recipient's current record
(or `none`) plus the clock, returning the allowed flag and the new record.
A fresh window starts when there is no record or the window has elapsed;
at the cap the call is refused without incrementing. -/
def checkRateLimit (maxPerHour now : Nat) : Option RLRecord → Bool × Option RLRecord
  | none => (true, some ⟨1, now⟩)
  | some record =>
    if now - record.windowStart > windowMs then (true, some ⟨1, now⟩)
    else if record.count ≥ maxPerHour then (false, some record)
    else (true, some ⟨record.count + 1, record.windowStart⟩)

/-- A sequence of `checkRateLimit` calls at the given times, for one
recipient, returning the results in order and the final record. -/
def runCalls (maxPerHour : Nat) (times : List Nat) (st : Option RLRecord) :
    List Bool × Option RLRecord :=
  match times with
  | [] => ([], st)
  | t :: ts =>
    let step := checkRateLimit maxPerHour t st
    let rest := runCalls maxPerHour ts step.2
    (step.1 :: rest.1, rest.2)

/-! ### Session memory (src/engine/context-memory.ts)

The operations below act on a single cache entry (`LeadMemory`); the
`memoryCache.get` addressing (and its not-found early returns) is outside
the embedded logic.  Each mutating operation returns the updated entry
together with the list of fire-and-forget tier-2 (Redis) writes it issues
via `_persistToRedis`; that helper catches every rejection, so issuing the
write is all a caller can observe. -/

inductive MsgRole
  | assistant
  | user
deriving DecidableEq

/-- `ConversationMessage` (role, content, timestamp in ms). -/
structure ConversationMessage where
  role : MsgRole
  content : String
  timestamp : Nat
deriving DecidableEq

/-- `LeadContextData`: every field is optional in the TS type; `none`
models an absent key. -/
structure LeadContextData where
  pain_points : Option (List String) := none
  main_goal : Option String := none
  current_situation : Option String := none
  implication : Option String := none
  commitment_accepted : Option Bool := none
  profile_type : Option String := none
  location : Option String := none
  name : Option String := none
  source_context : Option String := none
deriving DecidableEq

/-- `LeadMemory`, the session entry. -/
structure LeadMemory where
  leadId : String
  consultantId : String
  conversationId : String
  spinStage : String
  messages : List ConversationMessage
  context : LeadContextData
  signals : List String
  handoffScore : Int
  messageCount : Nat
  lastUpdated : Nat
deriving DecidableEq

/-- Key-override on one optional field, as in a JS object spread: a key
present in the update wins. -/
def ov {α : Type} : Option α → Option α → Option α
  | some v, _ => some v
  | none, o => o

/-- `{ ...old, ...updates }` on `LeadContextData`. -/
def mergeContext (old updates : LeadContextData) : LeadContextData :=
  { pain_points := ov updates.pain_points old.pain_points
    main_goal := ov updates.main_goal old.main_goal
    current_situation := ov updates.current_situation old.current_situation
    implication := ov updates.implication old.implication
    commitment_accepted := ov updates.commitment_accepted old.commitment_accepted
    profile_type := ov updates.profile_type old.profile_type
    location := ov updates.location old.location
    name := ov updates.name old.name
    source_context := ov updates.source_context old.source_context }

/-- `Object.keys(u).length > 0` for a partial context object. -/
def ctxNonempty (u : LeadContextData) : Bool :=
  u.pain_points.isSome || u.main_goal.isSome || u.current_situation.isSome ||
  u.implication.isSome || u.commitment_accepted.isSome || u.profile_type.isSome ||
  u.location.isSome || u.name.isSome || u.source_context.isSome

/-- `addMessage`: append to history, bump `messageCount`, stamp
`lastUpdated`, persist to tier-2. -/
def addMessage (m : LeadMemory) (role : MsgRole) (content : String) (now : Nat) :
    LeadMemory × List LeadMemory :=
  let m' := { m with
    messages := m.messages ++ [{ role := role, content := content, timestamp := now }],
    messageCount := m.messageCount + 1,
    lastUpdated := now }
  (m', [m'])

/-- `updateContext`: shallow-merge the updates, stamp `lastUpdated`,
persist to tier-2. -/
def updateContext (m : LeadMemory) (updates : LeadContextData) (now : Nat) :
    LeadMemory × List LeadMemory :=
  let m' := { m with context := mergeContext m.context updates, lastUpdated := now }
  (m', [m'])

def PRODUCT_FLOW : List String :=
  ["ice_break", "situation", "problem", "implication", "commitment", "transition", "closed"]

def BUSINESS_FLOW : List String :=
  ["biz_ice_break", "biz_qualification", "biz_implication", "biz_commitment", "transition", "closed"]

/-- JS `Array.prototype.indexOf` (−1 when absent). -/
def jsIndexOfAux (s : String) : List String → Int → Int
  | [], _ => -1
  | x :: xs, i => if x = s then i else jsIndexOfAux s xs (i + 1)

def jsIndexOf (l : List String) (s : String) : Int :=
  jsIndexOfAux s l 0

/-- The flow selected by `context.profile_type`. -/
def memFlow (m : LeadMemory) : List String :=
  if m.context.profile_type = some "business" then BUSINESS_FLOW else PRODUCT_FLOW

/-- `advanceStage`: move to `flow[min(currentIndex + 1, flow.length - 1)]`,
stamp `lastUpdated`, persist to tier-2.  The index is always in range, so
the `getD` default is unreachable. -/
def advanceStage (m : LeadMemory) (now : Nat) : LeadMemory × List LeadMemory :=
  let flow := memFlow m
  let currentIndex : Int := jsIndexOf flow m.spinStage
  let nextIndex : Int := min (currentIndex + 1) ((flow.length : Int) - 1)
  let nextStage := flow.getD nextIndex.toNat ""
  let m' := { m with spinStage := nextStage, lastUpdated := now }
  (m', [m'])

/-- `addSignal`: set semantics; persists only when the signal is new.  The
source reads no clock here and leaves `lastUpdated` alone. -/
def addSignal (m : LeadMemory) (signal : String) : LeadMemory × List LeadMemory :=
  if m.signals.contains signal then (m, [])
  else
    let m' := { m with signals := m.signals ++ [signal] }
    (m', [m'])

/-- `updateHandoffScore`: overwrite the score and persist.  The source
reads no clock here and leaves `lastUpdated` alone. -/
def updateHandoffScore (m : LeadMemory) (score : Int) : LeadMemory × List LeadMemory :=
  let m' := { m with handoffScore := score }
  (m', [m'])

/-- The shape `serializeMemory` projects to for the durable store. -/
structure SerializedMemory where
  spinStage : String
  messages : List ConversationMessage
  contextData : LeadContextData
deriving DecidableEq

/-- `serializeMemory`: project stage, messages and context only. -/
def serializeMemory (m : LeadMemory) : SerializedMemory :=
  { spinStage := m.spinStage, messages := m.messages, contextData := m.context }

/-- `restoreMemory`: rebuild an entry from a durable-store row; `signals`
restarts empty and `handoffScore` restarts at 0. -/
def restoreMemory (leadId consultantId conversationId spinStage : String)
    (messages : List ConversationMessage) (contextData : LeadContextData)
    (now : Nat) : LeadMemory :=
  { leadId := leadId
    consultantId := consultantId
    conversationId := conversationId
    spinStage := spinStage
    messages := messages
    context := contextData
    signals := []
    handoffScore := 0
    messageCount := messages.length
    lastUpdated := now }

/-! ### Daily check-in flow (src/pipeline/checkin-flow.ts)

`handleCheckinResponse` modelled per active, unexpired session: the session
lookup / TTL early-returns are addressing.  The formatted reply strings are
presentation only; the model records which branch produced them
(`reprompted`, `completedData`).  Weights are in hundredths of a kilogram
(`parseFloat` of a 1–2 decimal literal is exact, so this changes nothing
observable). -/

/-- The regex character class `\d` (ASCII digits). -/
def isDigitChar (c : Char) : Bool :=
  48 ≤ c.toNat ∧ c.toNat ≤ 57

/-- Decimal value of a digit run. -/
def digitsVal (ds : List Char) : Nat :=
  ds.foldl (fun a c => a * 10 + (c.toNat - 48)) 0

/-- The optional suffix `(\s*kg)?` anchored at the end (case-insensitive
`kg`, per the regex `i` flag). -/
def wsThenKg : List Char → Bool
  | [] => true
  | cs =>
    match cs.dropWhile jsWs with
    | [k, g] => (k == 'k' || k == 'K') && (g == 'g' || g == 'G')
    | _ => false

/-- The anchored weight pattern `/^(\d{2,3}([.,]\d{1,2})?)(\s*kg)?$/i`
applied to a whole string, returning the parsed value in hundredths of a
kilogram when it matches.  The pattern is deterministic: a digit run other
than 2-3 integer digits (resp. 1-2 fraction digits) cannot be rescued by
backtracking, because a leftover digit matches neither `[.,]`, `\s`, `k`
nor the end anchor. -/
def weightTail (ints : List Char) : List Char → Option Nat
  | [] => some (digitsVal ints * 100)
  | c :: rest2 =>
    if c = '.' ∨ c = ',' then
      let fr := rest2.takeWhile isDigitChar
      let rest3 := rest2.dropWhile isDigitChar
      if (1 ≤ fr.length ∧ fr.length ≤ 2) ∧ wsThenKg rest3 then
        some (digitsVal ints * 100 +
          (if fr.length = 1 then digitsVal fr * 10 else digitsVal fr))
      else none
    else if wsThenKg (c :: rest2) then some (digitsVal ints * 100) else none

def weightMatch (s : String) : Option Nat :=
  let ints := s.toList.takeWhile isDigitChar
  let rest := s.toList.dropWhile isDigitChar
  if 2 ≤ ints.length ∧ ints.length ≤ 3 then weightTail ints rest else none

/-- The `CheckinData` passed to `processCheckin` on completion. -/
structure CheckinData where
  shakeAm : Bool
  shakePm : Bool
  hydrationOk : Bool
  supplementOk : Bool
  weightKg : Option Nat
deriving DecidableEq

/-- `Partial<CheckinData>` accumulated across the steps. -/
structure CheckinDataDraft where
  shakeAm : Option Bool := none
  shakePm : Option Bool := none
  hydrationOk : Option Bool := none
  supplementOk : Option Bool := none
  weightKg : Option Nat := none
deriving DecidableEq

inductive CheckinStep
  | waiting_shake_am
  | waiting_shake_pm
  | waiting_hydration
  | waiting_supplement
  | waiting_weight
  | done
deriving DecidableEq

/-- `CheckinSession` (keyed by phone; the key is addressing). -/
structure CheckinSession where
  projectId : String
  leadPhone : String
  step : CheckinStep
  data : CheckinDataDraft
  startedAt : Nat
deriving DecidableEq

def yesTerms : List String :=
  ["sim", "s", "yes", "✅", "1", "ok", "claro", "tomei", "fiz", "tomado"]

def noTerms : List String :=
  ["não", "nao", "n", "no", "❌", "0", "não tomei", "esqueci", "não fiz"]

/-- `isYes`: some yes keyword occurs in the lowercased trimmed reply. -/
def checkinIsYes (msg : String) : Bool :=
  yesTerms.any (fun t => jsIncludes (jsTrim (jsToLower msg)) t)

/-- `isNo`: some no keyword occurs in the lowercased trimmed reply. -/
def checkinIsNo (msg : String) : Bool :=
  noTerms.any (fun t => jsIncludes (jsTrim (jsToLower msg)) t)

/-- The `waiting_weight` branch's data update: skip keywords short-circuit,
otherwise the anchored pattern is tried on the trimmed (not lowercased)
reply and a parsed value is stored only inside the 30–300 kg sanity
bound. -/
def weightStore (data : CheckinDataDraft) : Option Nat → CheckinDataDraft
  | some w =>
    if 3000 ≤ w ∧ w ≤ 30000 then { data with weightKg := some w } else data
  | none => data

def checkinWeightData (data : CheckinDataDraft) (message : String) : CheckinDataDraft :=
  let text := jsTrim (jsToLower message)
  let isPular := jsIncludes text "pular" || jsIncludes text "skip" ||
    text = "n" || text = "não"
  if isPular then data else weightStore data (weightMatch (jsTrim message))

/-- Outcome of one `handleCheckinResponse` call on an active session. -/
structure CheckinResult where
  handled : Bool
  sessionAfter : Option CheckinSession
  completedData : Option CheckinData
  reprompted : Bool
deriving DecidableEq

/-- One step of `handleCheckinResponse` past the session lookup: the
yes/no/re-prompt guard, the four boolean steps, the weight step (skip
keyword, anchored pattern, 30–300 kg sanity bound) and the `done`
fall-through that discards the session. -/
def handleCheckinStep (session : CheckinSession) (message : String) : CheckinResult :=
  let isYes := checkinIsYes message
  let isNo := checkinIsNo message
  if ¬isYes ∧ ¬isNo ∧ session.step ≠ CheckinStep.waiting_weight then
    { handled := true, sessionAfter := some session, completedData := none,
      reprompted := true }
  else
    match session.step with
    | .waiting_shake_am =>
      { handled := true,
        sessionAfter := some { session with
          data := { session.data with shakeAm := some isYes },
          step := .waiting_shake_pm },
        completedData := none, reprompted := false }
    | .waiting_shake_pm =>
      { handled := true,
        sessionAfter := some { session with
          data := { session.data with shakePm := some isYes },
          step := .waiting_hydration },
        completedData := none, reprompted := false }
    | .waiting_hydration =>
      { handled := true,
        sessionAfter := some { session with
          data := { session.data with hydrationOk := some isYes },
          step := .waiting_supplement },
        completedData := none, reprompted := false }
    | .waiting_supplement =>
      { handled := true,
        sessionAfter := some { session with
          data := { session.data with supplementOk := some isYes },
          step := .waiting_weight },
        completedData := none, reprompted := false }
    | .waiting_weight =>
      let data' := checkinWeightData session.data message
      { handled := true, sessionAfter := none,
        completedData := some
          { shakeAm := data'.shakeAm.getD false
            shakePm := data'.shakePm.getD false
            hydrationOk := data'.hydrationOk.getD false
            supplementOk := data'.supplementOk.getD false
            weightKg := data'.weightKg },
        reprompted := false }
    | .done =>
      { handled := false, sessionAfter := none, completedData := none,
        reprompted := false }

/-- Characters the weight pattern can accept anywhere in its input. -/
def allowedWChar (c : Char) : Bool :=
  isDigitChar c || c == '.' || c == ',' || jsWs c ||
  c == 'k' || c == 'K' || c == 'g' || c == 'G'

/-- A sample in-flight session entry used to instantiate theorems. -/
def memC2ex : LeadMemory :=
  { leadId := "lead-1"
    consultantId := "cons-1"
    conversationId := "conv-1"
    spinStage := "situation"
    messages := []
    context := {}
    signals := ["shared_pain"]
    handoffScore := 15
    messageCount := 0
    lastUpdated := 5 }

/-! ### Global send queue (src/safety/rate-limiter.ts)

`enqueueSend`/`processQueue` as a small-step transition system.  The
JavaScript event loop runs `processQueue` as a single consumer: it shifts
the head, checks the rate limit (dropping the item silently when
exceeded), `await`s the action to completion, sleeps, and only then shifts
the next item.  A dispatch transition therefore requires that no action is
currently running (`running = []`); `running` is a list so that "at most
one action in flight" is a provable invariant rather than a typing
artifact.  `enqueued` and `log` are history variables: every enqueue in
order, and every dequeued item in dequeue order. -/

structure QState where
  pending : List Nat
  running : List Nat
  log : List Nat
  started : List Nat
  enqueued : List Nat
deriving DecidableEq

/-- One step of the queue system: `enq` is `enqueueSend` (push), the two
dispatch steps are `processQueue` shifting the head (rate limit passed or
exceeded — the limiter's verdict is nondeterministic here), and `complete`
is the awaited action resolving (or rejecting; rejections are caught and
logged). -/
inductive QStep : QState → QState → Prop
  | enq (s : QState) (i : Nat) :
      QStep s { s with pending := s.pending ++ [i], enqueued := s.enqueued ++ [i] }
  | dispatchOk (s : QState) (i : Nat) (rest : List Nat) :
      s.running = [] → s.pending = i :: rest →
      QStep s { s with
        pending := rest
        running := [i]
        log := s.log ++ [i]
        started := s.started ++ [i] }
  | dispatchDrop (s : QState) (i : Nat) (rest : List Nat) :
      s.running = [] → s.pending = i :: rest →
      QStep s { s with pending := rest, log := s.log ++ [i] }
  | complete (s : QState) (i : Nat) :
      s.running = [i] → QStep s { s with running := [] }

/-- The initial state: empty queue, nothing running, empty history. -/
def initQ : QState := ⟨[], [], [], [], []⟩

/-- Reachability from the initial state. -/
def QReach (s : QState) : Prop := Relation.ReflTransGen QStep initQ s

/-- The state after enqueuing items 0,1,2 and running 0, 1 to completion
and starting 2 (used to instantiate the queue theorem). -/
def qWitState : QState := ⟨[], [2], [0, 1, 2], [0, 1, 2], [0, 1, 2]⟩

/-! ### LLM reply generation (src/engine/conversation-engine.ts,
`generateReply`)

The `anthropic.messages.create` call is abstracted by a per-attempt
outcome function: `some t` means attempt `k` returned text `t` (a
non-text content block throws inside the `try`, i.e. counts as `none`).
The model returns the reply together with the list of backoff sleeps
performed (ms). -/

def FALLBACK_REPLY : String :=
  "Oi! Recebi sua mensagem. Me dá um instante que já te respondo 😊"

/-- The unreachable return after the loop (TypeScript needs it). -/
def LOOP_EXIT_REPLY : String := "Oi! Me dá um instante 😊"

def MAX_RETRIES : Nat := 3

/-- The retry loop body: on success return the trimmed text; on failure at
the last attempt return the fallback; otherwise sleep `attempt * 2000` ms
and retry.  Fuel counts the remaining loop iterations. -/
def generateReplyLoop (attempts : Nat → Option String) : Nat → Nat → String × List Nat
  | _, 0 => (LOOP_EXIT_REPLY, [])
  | attempt, fuel + 1 =>
    match attempts attempt with
    | some t => (jsTrim t, [])
    | none =>
      if attempt = MAX_RETRIES then (FALLBACK_REPLY, [])
      else
        let rest := generateReplyLoop attempts (attempt + 1) fuel
        (rest.1, attempt * 2000 :: rest.2)

/-- `generateReply`'s retry structure: attempts 1..3. -/
def generateReply (attempts : Nat → Option String) : String × List Nat :=
  generateReplyLoop attempts 1 MAX_RETRIES

/-! ### Dialogue engine (src/engine/conversation-engine.ts)

`processMessage` on a resolved conversation memory.  The conversation
lookup/creation (`getOrCreateConversation`) is durable-store addressing;
the LLM completion is an oracle from the selected prompt to the produced
reply (its retry/fallback internals are `generateReply` above); the
durable-store write of `persistConversation` is returned as a
`PersistCall` record (its errors are caught and logged). -/

inductive StageTag
  | ICE_BREAK | SITUATION | PROBLEM | IMPLICATION | COMMITMENT | TRANSITION
deriving DecidableEq

inductive BizStageTag
  | BIZ_ICE_BREAK | BIZ_QUALIFICATION | BIZ_IMPLICATION | BIZ_COMMITMENT
deriving DecidableEq

inductive SpecialTag
  | OBJECTION_PRICE | OBJECTION_TIME | OBJECTION_SKEPTICAL | HANDOFF_READY
  | RE_ENGAGEMENT
deriving DecidableEq

/-- A selected prompt: which template (stage or special response) gets
instantiated with which context.  The PT-BR template text itself is
presentation. -/
inductive Prompt
  | spin (tag : StageTag) (ctx : LeadContextData)
  | biz (tag : BizStageTag) (ctx : LeadContextData)
  | special (tag : SpecialTag)
deriving DecidableEq

/-- `buildStagePrompt`: the stage-string switch, including the
`biz_implication` business/product disambiguation and the default to
`ICE_BREAK`. -/
def buildStagePrompt (m : LeadMemory) : Prompt :=
  let isBusiness := m.context.profile_type = some "business"
  match m.spinStage with
  | "ice_break" => .spin .ICE_BREAK m.context
  | "situation" => .spin .SITUATION m.context
  | "problem" => .spin .PROBLEM m.context
  | "implication" => .spin .IMPLICATION m.context
  | "commitment" => .spin .COMMITMENT m.context
  | "transition" => .spin .TRANSITION m.context
  | "biz_ice_break" => .biz .BIZ_ICE_BREAK m.context
  | "biz_qualification" => .biz .BIZ_QUALIFICATION m.context
  | "biz_implication" =>
    if isBusiness then .biz .BIZ_IMPLICATION m.context
    else .spin .IMPLICATION m.context
  | "biz_commitment" => .biz .BIZ_COMMITMENT m.context
  | _ => .spin .ICE_BREAK m.context

/-- The class `[A-ZÀ-Ú]` under the `i` flag (simple case folding): both
cases of A-Z and of À-Ú, where × (0xD7) has no case pair. -/
def upperNameClass (c : Char) : Bool :=
  (65 ≤ c.toNat ∧ c.toNat ≤ 90) ∨ (97 ≤ c.toNat ∧ c.toNat ≤ 122) ∨
  (192 ≤ c.toNat ∧ c.toNat ≤ 218) ∨
  (224 ≤ c.toNat ∧ c.toNat ≤ 250 ∧ c.toNat ≠ 247)

/-- The class `[a-zà-ú]` under the `i` flag: both cases of a-z and of
à-ú, where ÷ (0xF7) has no case pair. -/
def lowerNameClass (c : Char) : Bool :=
  (97 ≤ c.toNat ∧ c.toNat ≤ 122) ∨ (224 ≤ c.toNat ∧ c.toNat ≤ 250) ∨
  (65 ≤ c.toNat ∧ c.toNat ≤ 90) ∨
  (192 ≤ c.toNat ∧ c.toNat ≤ 218 ∧ c.toNat ≠ 215)

/-- Case-insensitive literal prefix test (needle, then haystack). -/
def ciPre : List Char → List Char → Bool
  | [], _ => true
  | _ :: _, [] => false
  | a :: as, b :: bs => jsToLowerChar a == jsToLowerChar b && ciPre as bs

/-- The alternation `(?:me chamo|meu nome é|sou (?:a |o )?)` flattened in
regex alternative order (literal alternatives first, then the optional
`a `/`o `, then the bare `sou `). -/
def namePrefixes : List String :=
  ["me chamo", "meu nome é", "sou a ", "sou o ", "sou "]

/-- After a matched prefix: `\s*([A-ZÀ-Ú][a-zà-ú]+)` — skip whitespace
(greedy; backtracking cannot help since no whitespace is in the letter
classes), one leading-class char and a greedy nonempty run of the
trailing class; the capture is the name. -/
def nameAfter (rest : List Char) : Option (List Char) :=
  match rest.dropWhile jsWs with
  | [] => none
  | c :: cs2 =>
    if upperNameClass c then
      let letters := cs2.takeWhile lowerNameClass
      if 1 ≤ letters.length then some (c :: letters) else none
    else none

/-- Try each alternative at the current position, in regex order. -/
def nameTryPrefixes : List String → List Char → Option (List Char)
  | [], _ => none
  | p :: ps, cs =>
    if ciPre p.toList cs then
      match nameAfter (cs.drop p.length) with
      | some nm => some nm
      | none => nameTryPrefixes ps cs
    else nameTryPrefixes ps cs

/-- Leftmost-match search over the message, as `String.prototype.match`
does for an unanchored pattern. -/
def nameSearchList : List Char → Option (List Char)
  | [] => none
  | cs@(_ :: t) =>
    match nameTryPrefixes namePrefixes cs with
    | some nm => some nm
    | none => nameSearchList t

/-- `message.match(/(?:me chamo|meu nome é|sou (?:a |o )?)\s*([A-ZÀ-Ú][a-zà-ú]+)/i)`,
capture group 1. -/
def nameSearch (message : String) : Option String :=
  (nameSearchList message.toList).map String.mk

/-- `extractContextFromMessage`: name via the self-introduction pattern
(only when no name is known), pain keywords appended to `pain_points`,
and a business `profile_type` inference from money vocabulary (only when
no profile is set).  Fields left `none` are keys absent from the updates
object. -/
def extractContextFromMessage (message : String) (currentContext : LeadContextData) :
    LeadContextData :=
  let text := jsToLower message
  let nameUpd : Option String :=
    match nameSearch message with
    | some nm => if currentContext.name = none then some nm else none
    | none => none
  let pains : List String :=
    (if jsIncludes text "energia" then ["falta de energia"] else []) ++
    (if jsIncludes text "cansad" then ["cansaço crônico"] else []) ++
    (if jsIncludes text "emagrec" || jsIncludes text "peso" then
      ["dificuldade para emagrecer"] else []) ++
    (if jsIncludes text "barriga" then ["barriga inchada"] else []) ++
    (if jsIncludes text "disposiç" then ["falta de disposição"] else []) ++
    (if jsIncludes text "sono" then ["problemas de sono"] else []) ++
    (if jsIncludes text "ansied" then ["ansiedade alimentar"] else [])
  let painUpd : Option (List String) :=
    if 0 < pains.length then some (currentContext.pain_points.getD [] ++ pains)
    else none
  let profileUpd : Option String :=
    if (jsIncludes text "renda" || jsIncludes text "dinheiro" ||
        jsIncludes text "negócio" || jsIncludes text "empreend") = true ∧
        currentContext.profile_type = none
    then some "business" else none
  { name := nameUpd, pain_points := painUpd, profile_type := profileUpd }

/-- `shouldAdvanceStage`: deterministic per-stage advancement heuristics.
`String.length` counts code points where JS counts UTF-16 units; these
agree on the Basic Multilingual Plane. -/
def shouldAdvanceStage (m : LeadMemory) (signals : List ConversationSignal)
    (userMessage : String) : Bool :=
  let positiveResponse := signals.contains ConversationSignal.responded_positively ||
    signals.contains ConversationSignal.expressed_interest ||
    signals.contains ConversationSignal.shared_pain
  if m.spinStage = "ice_break" ∧ 20 < userMessage.length then true
  else if m.spinStage = "situation" ∧ 30 < userMessage.length then true
  else if m.spinStage = "problem" ∧
      (signals.contains ConversationSignal.shared_pain = true ∨
        20 < userMessage.length) then true
  else if m.spinStage = "implication" ∧ positiveResponse = true then true
  else if m.spinStage = "commitment" ∧ positiveResponse = true then true
  else false

inductive NextAction
  | continue
  | handoff
  | close
  | request_whatsapp
deriving DecidableEq

/-- `ConversationResult`. -/
structure ConversationResult where
  reply : String
  spinStage : String
  handoffTriggered : Bool
  handoffScore : Option Int
  contextUpdated : LeadContextData
  nextAction : NextAction
deriving DecidableEq

/-- The durable-store update issued by `persistConversation` (status and
handoff flag; stage/messages/context are `serializeMemory` of the final
entry). -/
structure PersistCall where
  status : String
  handoff_triggered : Bool
deriving DecidableEq

/-- The memory after appending the user message and folding the detected
signals in (the `m1`/`m2` lets of `processMessage`). -/
def pmM2 (mem0 : LeadMemory) (userMessage : String) (now : Nat) : LeadMemory :=
  (detectConversationSignals userMessage).foldl
    (fun m s => (addSignal m (signalName s)).1)
    ((addMessage mem0 .user userMessage now).1)

/-- `newHandoffScore`: the score recomputed from the entry's running score
and the newly detected signals. -/
def pmScore (mem0 : LeadMemory) (userMessage : String) (now : Nat) : Int :=
  calculateHandoffScore (pmM2 mem0 userMessage now).handoffScore
    (detectConversationSignals userMessage)

/-- The memory after `updateHandoffScore` (the `m3` let). -/
def pmM3 (mem0 : LeadMemory) (userMessage : String) (now : Nat) : LeadMemory :=
  (updateHandoffScore (pmM2 mem0 userMessage now) (pmScore mem0 userMessage now)).1

/-- The handoff short-circuit branch: dedicated handoff reply, assistant
message appended, `negotiating` persist with the handoff flag, `handoff`
next action, no context extraction and no stage change. -/
def pmShortCircuit (llm : Prompt → String) (m3 : LeadMemory) (newScore : Int)
    (now : Nat) : ConversationResult × LeadMemory × PersistCall :=
  let handoffReply := llm (Prompt.special SpecialTag.HANDOFF_READY)
  let m4 := (addMessage m3 .assistant handoffReply now).1
  ({ reply := handoffReply
     spinStage := m4.spinStage
     handoffTriggered := true
     handoffScore := some newScore
     contextUpdated := {}
     nextAction := NextAction.handoff },
   m4, { status := "negotiating", handoff_triggered := true })

/-- The `m5` let: merge the heuristically extracted context when the
updates object has any key. -/
def pmM5 (m3 : LeadMemory) (userMessage : String) (now : Nat) : LeadMemory :=
  let contextUpdates := extractContextFromMessage userMessage m3.context
  if ctxNonempty contextUpdates = true then (updateContext m3 contextUpdates now).1
  else m3

/-- `acceptedCommitment`: a positive response at a commitment stage. -/
def pmAccepted (m5 : LeadMemory) (signals : List ConversationSignal) : Bool :=
  signals.contains ConversationSignal.responded_positively &&
  (m5.spinStage == "commitment" || m5.spinStage == "biz_commitment")

/-- The `m6` let: record the accepted micro-commitment. -/
def pmM6 (m5 : LeadMemory) (signals : List ConversationSignal) (now : Nat) :
    LeadMemory :=
  if pmAccepted m5 signals = true then
    (updateContext m5 { commitment_accepted := some true } now).1
  else m5

/-- The `m7` let: assistant reply (LLM on the stage prompt) appended. -/
def pmM7 (llm : Prompt → String) (m6 : LeadMemory) (now : Nat) : LeadMemory :=
  (addMessage m6 .assistant (llm (buildStagePrompt m6)) now).1

/-- The `m8` let: rule-based stage advancement. -/
def pmM8 (m7 : LeadMemory) (signals : List ConversationSignal)
    (userMessage : String) (now : Nat) : LeadMemory :=
  if shouldAdvanceStage m7 signals userMessage = true then (advanceStage m7 now).1
  else m7

/-- The normal (non-handoff) branch of `processMessage`. -/
def pmNormal (llm : Prompt → String) (m3 : LeadMemory)
    (signals : List ConversationSignal) (userMessage : String)
    (newScore : Int) (now : Nat) : ConversationResult × LeadMemory × PersistCall :=
  let contextUpdates := extractContextFromMessage userMessage m3.context
  let m5 := pmM5 m3 userMessage now
  let m6 := pmM6 m5 signals now
  let reply := llm (buildStagePrompt m6)
  let m7 := pmM7 llm m6 now
  let currentStage := m7.spinStage
  let shouldAdv := shouldAdvanceStage m7 signals userMessage
  let m8 := pmM8 m7 signals userMessage now
  let nextAction := if shouldAdv = true ∧ m8.spinStage = "transition" then
    NextAction.request_whatsapp else NextAction.continue
  ({ reply := reply
     spinStage := currentStage
     handoffTriggered := false
     handoffScore := some newScore
     contextUpdated := contextUpdates
     nextAction := nextAction },
   m8, { status := "active", handoff_triggered := false })

/-- `processMessage` on a resolved memory entry: append the user message,
detect and fold signals, recompute the handoff score; short-circuit to the
dedicated handoff reply when the score crosses the threshold and no
commitment was accepted (JS truthiness: the flag blocks only when it is
`true`); otherwise extract context, possibly record the accepted
commitment, build the stage prompt, ask the LLM, and apply the
rule-based stage advancement. -/
def processMessage (llm : Prompt → String) (mem0 : LeadMemory)
    (userMessage : String) (now : Nat) :
    ConversationResult × LeadMemory × PersistCall :=
  let signals := detectConversationSignals userMessage
  let newHandoffScore := pmScore mem0 userMessage now
  let m3 := pmM3 mem0 userMessage now
  if shouldHandoff newHandoffScore = true ∧
      ¬(m3.context.commitment_accepted = some true) then
    pmShortCircuit llm m3 newHandoffScore now
  else
    pmNormal llm m3 signals userMessage newHandoffScore now

/-- A sequence of inbound messages for one conversation, processed in
order (each call resolves the memory the previous call left behind). -/
def processThread (llm : Prompt → String) (mem : LeadMemory)
    (msgs : List String) (now : Nat) : List ConversationResult × LeadMemory :=
  match msgs with
  | [] => ([], mem)
  | msg :: rest =>
    let r := processMessage llm mem msg now
    let rr := processThread llm r.2.1 rest now
    (r.1 :: rr.1, rr.2)

/-- A sample memory entry close to the handoff threshold. -/
def memC1ex : LeadMemory :=
  { leadId := "lead-3"
    consultantId := "cons-1"
    conversationId := "conv-3"
    spinStage := "problem"
    messages := []
    context := {}
    signals := []
    handoffScore := 60
    messageCount := 0
    lastUpdated := 0 }

/-- A sample check-in session at the first boolean step. -/
def sessC10ex : CheckinSession :=
  { projectId := "proj-1"
    leadPhone := "5511999990000"
    step := CheckinStep.waiting_shake_am
    data := {}
    startedAt := 0 }

/-- A sample check-in session at the weight step. -/
def sessC8ex : CheckinSession :=
  { projectId := "proj-1"
    leadPhone := "5511999990000"
    step := CheckinStep.waiting_weight
    data := { shakeAm := some true, shakePm := some false,
              hydrationOk := some true, supplementOk := some true }
    startedAt := 0 }

/-- A sample terminal-stage session entry used to instantiate theorems. -/
def memC5ex : LeadMemory :=
  { leadId := "lead-2"
    consultantId := "cons-1"
    conversationId := "conv-2"
    spinStage := "closed"
    messages := []
    context := {}
    signals := []
    handoffScore := 40
    messageCount := 0
    lastUpdated := 7 }

/-! ### Proof development (all theorems follow the definitions) -/

theorem advanceStage_spin (m : LeadMemory) (now : Nat) :
    (advanceStage m now).1.spinStage =
      (memFlow m).getD
        (min (jsIndexOf (memFlow m) m.spinStage + 1)
          (((memFlow m).length : Int) - 1)).toNat "" := rfl

theorem advanceStage_context (m : LeadMemory) (now : Nat) :
    (advanceStage m now).1.context = m.context := rfl

theorem runCalls_allowed (N : Nat) (ts : List Nat) :
    ∀ (c t0 : Nat), c + ts.length ≤ N → (∀ u ∈ ts, u - t0 ≤ windowMs) →
    runCalls N ts (some ⟨c, t0⟩) =
      (List.replicate ts.length true, some ⟨c + ts.length, t0⟩) := by
  induction ts with
  | nil => intro c t0 _ _; simp [runCalls]
  | cons u us ih =>
    intro c t0 hle hin
    have hlen : (u :: us).length = us.length + 1 := List.length_cons u us
    have hu : ¬ (windowMs < u - t0) :=
      Nat.not_lt.mpr (hin u (List.mem_cons_self u us))
    have hcnt : ¬ (c ≥ N) := by rw [hlen] at hle; omega
    have step : checkRateLimit N u (some ⟨c, t0⟩) = (true, some ⟨c + 1, t0⟩) := by
      simp [checkRateLimit, hu, hcnt]
    have hrec : runCalls N us (some ⟨c + 1, t0⟩) =
        (List.replicate us.length true, some ⟨(c + 1) + us.length, t0⟩) := by
      refine ih (c + 1) t0 (by rw [hlen] at hle; omega) ?_
      intro v hv; exact hin v (List.mem_cons_of_mem u hv)
    simp only [runCalls, step, hrec, hlen, List.replicate_succ]
    rw [show c + 1 + us.length = c + (us.length + 1) from by omega]

/-- C6: `shouldHandoff(score)` holds exactly when the score is at least 75,
and `calculateHandoffScore` applied to a single `rejected` signal (weight
-40) from any base score at most 40 is clamped below at exactly 0. -/
theorem C6_handoff_threshold_and_rejected_clamp :
    (∀ score : Int, shouldHandoff score = true ↔ 75 ≤ score) ∧
    (∀ base : Int, base ≤ 40 →
      calculateHandoffScore base [ConversationSignal.rejected] = 0) := by
  constructor
  · intro score
    simp [shouldHandoff, ge_iff_le]
  · intro base h
    simp only [calculateHandoffScore, List.foldl, SIGNAL_WEIGHTS]
    omega

/-- C6 witness: the theorem applied at score 75 and base 40. -/
theorem C6_witness :
    shouldHandoff 75 = true ∧
    calculateHandoffScore 40 [ConversationSignal.rejected] = 0 :=
  ⟨(C6_handoff_threshold_and_rejected_clamp.1 75).mpr (by norm_num),
   C6_handoff_threshold_and_rejected_clamp.2 40 (by norm_num)⟩

/-- C3: with cap `N ≥ 1`, a first call at `t0` plus `N - 1` further calls
inside the window are all allowed and leave the counter at `N`; the
`(N+1)`-th in-window call returns false and does not increment; once the
clock exceeds the window start by more than one hour the counter resets to
1 and the next call is allowed. -/
theorem C3_rate_limit_window (N t0 : Nat) (ts : List Nat) (tLast tReset : Nat)
    (hN : 1 ≤ N) (hlen : ts.length = N - 1)
    (hin : ∀ u ∈ ts, u - t0 ≤ windowMs)
    (hLast : tLast - t0 ≤ windowMs) (hReset : tReset - t0 > windowMs) :
    runCalls N (t0 :: ts) none = (List.replicate N true, some ⟨N, t0⟩) ∧
    checkRateLimit N tLast (some ⟨N, t0⟩) = (false, some ⟨N, t0⟩) ∧
    checkRateLimit N tReset (some ⟨N, t0⟩) = (true, some ⟨1, tReset⟩) := by
  refine ⟨?_, ?_, ?_⟩
  · have h1 : runCalls N ts (some ⟨1, t0⟩) =
        (List.replicate ts.length true, some ⟨1 + ts.length, t0⟩) :=
      runCalls_allowed N ts 1 t0 (by omega) hin
    have hNs : N = ts.length + 1 := by omega
    subst hNs
    have step0 : checkRateLimit (ts.length + 1) t0 none = (true, some ⟨1, t0⟩) := rfl
    simp only [runCalls, step0, h1, List.replicate_succ]
    rw [show 1 + ts.length = ts.length + 1 from by omega]
  · simp [checkRateLimit, Nat.not_lt.mpr hLast, le_refl]
  · simp [checkRateLimit, hReset]

/-- C3 witness: cap 3, first call at 0, then calls at 1 and 2 (allowed),
a fourth in-window call at 3 (refused, counter unchanged), and a call at
3600001 after the window (allowed, counter reset to 1). -/
theorem C3_witness :
    runCalls 3 [0, 1, 2] none = (List.replicate 3 true, some ⟨3, 0⟩) ∧
    checkRateLimit 3 3 (some ⟨3, 0⟩) = (false, some ⟨3, 0⟩) ∧
    checkRateLimit 3 3600001 (some ⟨3, 0⟩) = (true, some ⟨1, 3600001⟩) :=
  C3_rate_limit_window 3 0 [1, 2] 3 3600001 (by norm_num) (by decide)
    (by decide) (by decide) (by decide)

/-- C2 counterexample: `updateHandoffScore` and `addSignal` genuinely mutate
the entry (score 15 → 80; a new signal is appended) yet leave `lastUpdated`
exactly as it was — the source reads no clock in either function — and a
duplicate `addSignal` issues no tier-2 write at all. -/
theorem C2_counterexample :
    (updateHandoffScore memC2ex 80).1.handoffScore = 80 ∧
    (updateHandoffScore memC2ex 80).1.lastUpdated = memC2ex.lastUpdated ∧
    (addSignal memC2ex "went_cold").1.signals = memC2ex.signals ++ ["went_cold"] ∧
    (addSignal memC2ex "went_cold").1.lastUpdated = memC2ex.lastUpdated ∧
    (addSignal memC2ex "shared_pain").2 = [] := by
  refine ⟨rfl, rfl, by decide, by decide, by decide⟩

/-- C2 (amended): `addMessage`, `updateContext` and `advanceStage` stamp
`lastUpdated` with the call time and issue exactly one tier-2 write of the
full updated entry; `addSignal` leaves `lastUpdated` unchanged and issues
the write only when the signal is new; `updateHandoffScore` leaves
`lastUpdated` unchanged while still issuing the write.  Failures of the
write are swallowed inside `_persistToRedis`, so every operation returns
normally. -/
theorem C2_mutating_ops_lastUpdated_and_tier2 :
    ∀ (m : LeadMemory) (role : MsgRole) (content : String)
      (updates : LeadContextData) (sig : String) (score : Int) (now : Nat),
    ((addMessage m role content now).1.lastUpdated = now ∧
      (addMessage m role content now).2 = [(addMessage m role content now).1]) ∧
    ((updateContext m updates now).1.lastUpdated = now ∧
      (updateContext m updates now).2 = [(updateContext m updates now).1]) ∧
    ((advanceStage m now).1.lastUpdated = now ∧
      (advanceStage m now).2 = [(advanceStage m now).1]) ∧
    ((addSignal m sig).1.lastUpdated = m.lastUpdated ∧
      (addSignal m sig).2 =
        (if m.signals.contains sig then [] else [(addSignal m sig).1])) ∧
    ((updateHandoffScore m score).1.lastUpdated = m.lastUpdated ∧
      (updateHandoffScore m score).2 = [(updateHandoffScore m score).1]) := by
  intro m role content updates sig score now
  refine ⟨⟨rfl, rfl⟩, ⟨rfl, rfl⟩, ⟨rfl, rfl⟩, ?_, ⟨rfl, rfl⟩⟩
  by_cases h : sig ∈ m.signals <;> simp [addSignal, h]

/-- C9: a serialize/restore round trip through the durable store keeps
stage, messages and context but always restarts `signals` empty and
`handoffScore` at 0, whatever the entry held before. -/
theorem C9_restore_drops_signals_and_handoffScore :
    ∀ (m : LeadMemory) (lid cid conv : String) (now : Nat),
    (restoreMemory lid cid conv (serializeMemory m).spinStage
        (serializeMemory m).messages (serializeMemory m).contextData now).signals = [] ∧
    (restoreMemory lid cid conv (serializeMemory m).spinStage
        (serializeMemory m).messages (serializeMemory m).contextData now).handoffScore = 0 ∧
    (restoreMemory lid cid conv (serializeMemory m).spinStage
        (serializeMemory m).messages (serializeMemory m).contextData now).spinStage = m.spinStage ∧
    (restoreMemory lid cid conv (serializeMemory m).spinStage
        (serializeMemory m).messages (serializeMemory m).contextData now).messages = m.messages ∧
    (restoreMemory lid cid conv (serializeMemory m).spinStage
        (serializeMemory m).messages (serializeMemory m).contextData now).context = m.context := by
  intro m lid cid conv now
  exact ⟨rfl, rfl, rfl, rfl, rfl⟩

/-- C5: if the current stage sits at index `i` of the selected flow,
`advanceStage` moves it to index `min(i + 1, last)` of that flow (one step,
no skipping, saturating), and at the terminal stage `closed` repeated calls
leave the stage unchanged. -/
theorem C5_advanceStage_saturating_idempotent :
    ∀ (m : LeadMemory) (now now2 : Nat) (i : Nat),
      i < (memFlow m).length →
      m.spinStage = (memFlow m).getD i "" →
      (advanceStage m now).1.spinStage
          = (memFlow m).getD (min (i + 1) ((memFlow m).length - 1)) "" ∧
      (m.spinStage = "closed" →
        (advanceStage m now).1.spinStage = "closed" ∧
        (advanceStage (advanceStage m now).1 now2).1.spinStage = "closed") := by
  intro m now now2 i hi hs
  by_cases hb : m.context.profile_type = some "business"
  · have hflow : memFlow m = BUSINESS_FLOW := by simp [memFlow, hb]
    have hflow2 : memFlow (advanceStage m now).1 = BUSINESS_FLOW := by
      simp [memFlow, advanceStage_context, hb]
    rw [hflow] at hi hs ⊢
    simp only [BUSINESS_FLOW, List.length_cons, List.length_nil] at hi
    interval_cases i <;>
      refine ⟨by rw [advanceStage_spin, hflow, hs]; decide, fun hclosed => ?_⟩ <;>
      first
        | exact absurd (hs.symm.trans hclosed) (by decide)
        | (have h1 : (advanceStage m now).1.spinStage = "closed" := by
             rw [advanceStage_spin, hflow, hs]; decide
           refine ⟨h1, ?_⟩
           rw [advanceStage_spin (advanceStage m now).1 now2, hflow2, h1]
           decide)
  · have hflow : memFlow m = PRODUCT_FLOW := by simp [memFlow, hb]
    have hflow2 : memFlow (advanceStage m now).1 = PRODUCT_FLOW := by
      simp [memFlow, advanceStage_context, hb]
    rw [hflow] at hi hs ⊢
    simp only [PRODUCT_FLOW, List.length_cons, List.length_nil] at hi
    interval_cases i <;>
      refine ⟨by rw [advanceStage_spin, hflow, hs]; decide, fun hclosed => ?_⟩ <;>
      first
        | exact absurd (hs.symm.trans hclosed) (by decide)
        | (have h1 : (advanceStage m now).1.spinStage = "closed" := by
             rw [advanceStage_spin, hflow, hs]; decide
           refine ⟨h1, ?_⟩
           rw [advanceStage_spin (advanceStage m now).1 now2, hflow2, h1]
           decide)

/-- C5 witness: the theorem applied to a terminal-stage (`closed`, index 6
of the product flow) entry at two successive calls. -/
theorem C5_witness :
    (advanceStage memC5ex 10).1.spinStage
        = (memFlow memC5ex).getD (min (6 + 1) ((memFlow memC5ex).length - 1)) "" ∧
    (memC5ex.spinStage = "closed" →
      (advanceStage memC5ex 10).1.spinStage = "closed" ∧
      (advanceStage (advanceStage memC5ex 10).1 11).1.spinStage = "closed") :=
  C5_advanceStage_saturating_idempotent memC5ex 10 11 6 (by decide) (by decide)

theorem charToNatOfNat (n : Nat) (h : n < 55296) : (Char.ofNat n).toNat = n := by
  have hv : n.isValidChar := Or.inl h
  simp only [Char.ofNat, hv, dite_true, Char.ofNatAux, Char.toNat]
  simp [UInt32.toNat, BitVec.ofNatLt]

theorem jsWs_toLowerChar (c : Char) : jsWs (jsToLowerChar c) = jsWs c := by
  unfold jsToLowerChar
  split_ifs with h1 h2
  · have ht : (Char.ofNat (c.toNat + 32)).toNat = c.toNat + 32 :=
      charToNatOfNat _ (by omega)
    simp only [jsWs, ht]
    rw [decide_eq_decide]
    omega
  · have ht : (Char.ofNat (c.toNat + 32)).toNat = c.toNat + 32 :=
      charToNatOfNat _ (by omega)
    simp only [jsWs, ht]
    rw [decide_eq_decide]
    omega
  · rfl

theorem jsToLowerChar_of_digit (c : Char) (h : isDigitChar c = true) :
    jsToLowerChar c = c := by
  have hn : 48 ≤ c.toNat ∧ c.toNat ≤ 57 := by
    simpa [isDigitChar, decide_eq_true_iff] using h
  unfold jsToLowerChar
  rw [if_neg (by omega), if_neg (by omega)]

theorem pre_subset : ∀ (n hay : List Char), pre n hay = true → ∀ c ∈ n, c ∈ hay := by
  intro n
  induction n with
  | nil => intro hay _ c hc; cases hc
  | cons a as ih =>
    intro hay h c hc
    cases hay with
    | nil => simp [pre] at h
    | cons b bs =>
      simp only [pre, Bool.and_eq_true, beq_iff_eq] at h
      rcases List.mem_cons.mp hc with rfl | hmem
      · rw [h.1]; exact List.mem_cons_self b bs
      · exact List.mem_cons_of_mem b (ih bs h.2 c hmem)

theorem subAt_subset : ∀ (hay n : List Char), subAt hay n = true → ∀ c ∈ n, c ∈ hay := by
  intro hay
  induction hay with
  | nil =>
    intro n h c hc
    simp only [subAt, List.isEmpty_iff] at h
    subst h; cases hc
  | cons b bs ih =>
    intro n h c hc
    simp only [subAt, Bool.or_eq_true] at h
    rcases h with h | h
    · exact pre_subset n (b :: bs) h c hc
    · exact List.mem_cons_of_mem b (ih n h c hc)

theorem jsTrimList_map_toLower (l : List Char) :
    jsTrimList (l.map jsToLowerChar) = (jsTrimList l).map jsToLowerChar := by
  have hdw : ∀ (l' : List Char),
      (l'.map jsToLowerChar).dropWhile jsWs = (l'.dropWhile jsWs).map jsToLowerChar := by
    intro l'
    have hpf : (jsWs ∘ jsToLowerChar) = jsWs := funext jsWs_toLowerChar
    rw [List.dropWhile_map, hpf]
  unfold jsTrimList
  rw [hdw, ← List.map_reverse, hdw, List.map_reverse]

theorem jsTrim_jsToLower (s : String) :
    jsTrim (jsToLower s) = jsToLower (jsTrim s) := by
  simp only [jsTrim, jsToLower]
  rw [show (String.mk (s.toList.map jsToLowerChar)).toList
        = s.toList.map jsToLowerChar from rfl,
      show (String.mk (jsTrimList s.toList)).toList = jsTrimList s.toList from rfl,
      jsTrimList_map_toLower]

theorem toLower_allowed (c : Char) (h : allowedWChar c = true) :
    isDigitChar (jsToLowerChar c) = true ∨ jsToLowerChar c = '.' ∨
    jsToLowerChar c = ',' ∨ jsWs (jsToLowerChar c) = true ∨
    jsToLowerChar c = 'k' ∨ jsToLowerChar c = 'g' := by
  simp only [allowedWChar, Bool.or_eq_true, beq_iff_eq] at h
  rcases h with ((((((h | h) | h) | h) | h) | h) | h) | h
  · left; rw [jsToLowerChar_of_digit c h]; exact h
  · subst h; right; left; decide
  · subst h; right; right; left; decide
  · right; right; right; left; rw [jsWs_toLowerChar]; exact h
  · subst h; right; right; right; right; left; decide
  · subst h; right; right; right; right; left; decide
  · subst h; right; right; right; right; right; decide
  · subst h; right; right; right; right; right; decide

theorem wsThenKg_chars (cs : List Char) (h : wsThenKg cs = true) :
    ∀ c ∈ cs, jsWs c = true ∨ c = 'k' ∨ c = 'K' ∨ c = 'g' ∨ c = 'G' := by
  intro c hc
  cases cs with
  | nil => cases hc
  | cons a l =>
    have hsplit : (a :: l).takeWhile jsWs ++ (a :: l).dropWhile jsWs = a :: l :=
      List.takeWhile_append_dropWhile jsWs (a :: l)
    rcases List.mem_append.mp (by rw [hsplit]; exact hc) with h1 | h2
    · exact Or.inl (List.mem_takeWhile_imp h1)
    · have h' : (match (a :: l).dropWhile jsWs with
          | [k, g] => (k == 'k' || k == 'K') && (g == 'g' || g == 'G')
          | _ => false) = true := h
      rcases hd : (a :: l).dropWhile jsWs with _ | ⟨k, tl⟩
      · rw [hd] at h2; cases h2
      rcases tl with _ | ⟨g, tl2⟩
      · rw [hd] at h'
        exact Bool.noConfusion h'
      rcases tl2 with _ | ⟨x, tl3⟩
      · rw [hd] at h' h2
        have hkg : ((k == 'k' || k == 'K') && (g == 'g' || g == 'G')) = true := h'
        simp only [Bool.and_eq_true, Bool.or_eq_true, beq_iff_eq] at hkg
        rcases List.mem_cons.mp h2 with rfl | h2
        · rcases hkg.1 with rfl | rfl
          · exact Or.inr (Or.inl rfl)
          · exact Or.inr (Or.inr (Or.inl rfl))
        · rcases List.mem_cons.mp h2 with rfl | h2
          · rcases hkg.2 with rfl | rfl
            · exact Or.inr (Or.inr (Or.inr (Or.inl rfl)))
            · exact Or.inr (Or.inr (Or.inr (Or.inr rfl)))
          · cases h2
      · rw [hd] at h'
        exact Bool.noConfusion h'

theorem weightMatch_chars (s : String) (v : Nat) (h : weightMatch s = some v) :
    ∀ c ∈ s.toList, allowedWChar c = true := by
  intro c hc
  simp only [weightMatch] at h
  by_cases hlen : 2 ≤ (s.toList.takeWhile isDigitChar).length ∧
      (s.toList.takeWhile isDigitChar).length ≤ 3
  case neg => rw [if_neg hlen] at h; cases h
  rw [if_pos hlen] at h
  have hsplit : s.toList.takeWhile isDigitChar ++ s.toList.dropWhile isDigitChar
      = s.toList := List.takeWhile_append_dropWhile _ _
  rcases List.mem_append.mp (by rw [hsplit]; exact hc) with hInts | hRest
  · simp [allowedWChar, List.mem_takeWhile_imp hInts]
  rcases hr : s.toList.dropWhile isDigitChar with _ | ⟨r, rest2⟩
  · rw [hr] at hRest; cases hRest
  rw [hr] at h hRest
  simp only [weightTail] at h
  by_cases hdot : r = '.' ∨ r = ','
  · rw [if_pos hdot] at h
    by_cases hfr : (1 ≤ (rest2.takeWhile isDigitChar).length ∧
        (rest2.takeWhile isDigitChar).length ≤ 2) ∧
        wsThenKg (rest2.dropWhile isDigitChar) = true
    case neg => rw [if_neg hfr] at h; cases h
    rcases List.mem_cons.mp hRest with rfl | h2
    · rcases hdot with rfl | rfl <;> decide
    have hsplit2 : rest2.takeWhile isDigitChar ++ rest2.dropWhile isDigitChar
        = rest2 := List.takeWhile_append_dropWhile _ _
    rcases List.mem_append.mp (by rw [hsplit2]; exact h2) with hFr | hR3
    · simp [allowedWChar, List.mem_takeWhile_imp hFr]
    · rcases wsThenKg_chars _ hfr.2 c hR3 with hw | hk | hk | hk | hk
      · simp [allowedWChar, hw]
      all_goals (subst hk; decide)
  · rw [if_neg hdot] at h
    by_cases hkg : wsThenKg (r :: rest2) = true
    case neg => rw [if_neg hkg] at h; cases h
    rcases wsThenKg_chars _ hkg c hRest with hw | hk | hk | hk | hk
    · simp [allowedWChar, hw]
    all_goals (subst hk; decide)

theorem weightMatch_intsLen (s : String) (v : Nat) (h : weightMatch s = some v) :
    2 ≤ (s.toList.takeWhile isDigitChar).length := by
  simp only [weightMatch] at h
  by_cases hlen : 2 ≤ (s.toList.takeWhile isDigitChar).length ∧
      (s.toList.takeWhile isDigitChar).length ≤ 3
  · exact hlen.1
  · rw [if_neg hlen] at h; cases h

theorem weightMatch_not_skip (msg : String) (v : Nat)
    (h : weightMatch (jsTrim msg) = some v) :
    jsIncludes (jsTrim (jsToLower msg)) "pular" = false ∧
    jsIncludes (jsTrim (jsToLower msg)) "skip" = false ∧
    jsTrim (jsToLower msg) ≠ "n" ∧
    jsTrim (jsToLower msg) ≠ "não" := by
  have hallowed : ∀ c ∈ (jsTrim msg).toList, allowedWChar c = true :=
    weightMatch_chars _ v h
  have hlower_list : (jsTrim (jsToLower msg)).toList
      = (jsTrim msg).toList.map jsToLowerChar := by
    rw [jsTrim_jsToLower]; rfl
  have himg : ∀ c ∈ (jsTrim (jsToLower msg)).toList,
      isDigitChar c = true ∨ c = '.' ∨ c = ',' ∨ jsWs c = true ∨
      c = 'k' ∨ c = 'g' := by
    rw [hlower_list]
    intro c hc
    rcases List.mem_map.mp hc with ⟨c₀, hc₀, rfl⟩
    exact toLower_allowed c₀ (hallowed c₀ hc₀)
  have hints := weightMatch_intsLen _ v h
  have hbaselen : 2 ≤ (jsTrim msg).toList.length := by
    have hsplit : (jsTrim msg).toList.takeWhile isDigitChar ++
        (jsTrim msg).toList.dropWhile isDigitChar = (jsTrim msg).toList :=
      List.takeWhile_append_dropWhile _ _
    have hlen := congrArg List.length hsplit
    simp only [List.length_append] at hlen
    omega
  refine ⟨?_, ?_, ?_, ?_⟩
  · rcases Bool.eq_false_or_eq_true (jsIncludes (jsTrim (jsToLower msg)) "pular")
      with ht | hf
    · exfalso
      have hp : 'p' ∈ (jsTrim (jsToLower msg)).toList :=
        subAt_subset _ _ ht 'p' (by decide)
      rcases himg 'p' hp with hx | hx | hx | hx | hx | hx <;>
        exact absurd hx (by decide)
    · exact hf
  · rcases Bool.eq_false_or_eq_true (jsIncludes (jsTrim (jsToLower msg)) "skip")
      with ht | hf
    · exfalso
      have hp : 's' ∈ (jsTrim (jsToLower msg)).toList :=
        subAt_subset _ _ ht 's' (by decide)
      rcases himg 's' hp with hx | hx | hx | hx | hx | hx <;>
        exact absurd hx (by decide)
    · exact hf
  · intro heq
    have hl : (jsTrim msg).toList.map jsToLowerChar = "n".toList := by
      rw [← hlower_list, heq]
    have := congrArg List.length hl
    simp only [List.length_map] at this
    rw [this] at hbaselen
    exact absurd hbaselen (by decide)
  · intro heq
    have hl : (jsTrim msg).toList.map jsToLowerChar = "não".toList := by
      rw [← hlower_list, heq]
    rcases hbase : (jsTrim msg).toList with _ | ⟨b, bt⟩
    · rw [hbase] at hbaselen; exact absurd hbaselen (by decide)
    have hdigit : isDigitChar b = true := by
      by_cases hpb : isDigitChar b = true
      · exact hpb
      · exfalso
        rw [hbase, List.takeWhile_cons, if_neg (by simp [hpb])] at hints
        exact absurd hints (by decide)
    rw [hbase] at hl
    simp only [List.map_cons] at hl
    have hb : jsToLowerChar b = 'n' := by
      have := congrArg (fun l => l.headD ' ') hl
      simpa using this
    rw [jsToLowerChar_of_digit b hdigit] at hb
    rw [hb] at hdigit
    exact absurd hdigit (by decide)

theorem checkinWeightData_weightKg (dd : CheckinDataDraft) (msg : String)
    (hnone : dd.weightKg = none) (w : Nat) :
    (checkinWeightData dd msg).weightKg = some w ↔
      (weightMatch (jsTrim msg) = some w ∧ 3000 ≤ w ∧ w ≤ 30000) := by
  simp only [checkinWeightData]
  rcases hm : weightMatch (jsTrim msg) with _ | v
  · split_ifs with hp <;> simp [weightStore, hnone]
  · have hns := weightMatch_not_skip msg v hm
    have hPular : (jsIncludes (jsTrim (jsToLower msg)) "pular" ||
        jsIncludes (jsTrim (jsToLower msg)) "skip" ||
        decide (jsTrim (jsToLower msg) = "n") ||
        decide (jsTrim (jsToLower msg) = "não")) = false := by
      rw [hns.1, hns.2.1, decide_eq_false hns.2.2.1, decide_eq_false hns.2.2.2]
      rfl
    rw [if_neg (by simp [hPular])]
    simp only [weightStore]
    split_ifs with hr
    · show some v = some w ↔ (some v = some w ∧ 3000 ≤ w ∧ w ≤ 30000)
      constructor
      · intro h
        have hw := Option.some.inj h
        subst hw
        exact ⟨h, hr.1, hr.2⟩
      · rintro ⟨h, _, _⟩; exact h
    · show dd.weightKg = some w ↔ (some v = some w ∧ 3000 ≤ w ∧ w ≤ 30000)
      rw [hnone]
      constructor
      · intro hcon; cases hcon
      · rintro ⟨h, h2, h3⟩
        have hw := Option.some.inj h
        subst hw
        exact absurd ⟨h2, h3⟩ hr

/-- C8: at the `waiting_weight` step the session always completes (it is
removed and the accumulated data is handed to `processCheckin`), and a
weight is recorded exactly when the trimmed reply matches the anchored
pattern `^(\d{2,3}([.,]\d{1,2})?)(\s*kg)?$` (case-insensitive) with the
parsed value inside the 30-300 kg bound; skip keywords cannot collide with
a pattern match. -/
theorem C8_weight_step_anchored_pattern :
    ∀ (sess : CheckinSession) (msg : String),
      sess.step = CheckinStep.waiting_weight →
      sess.data.weightKg = none →
      (handleCheckinStep sess msg).handled = true ∧
      (handleCheckinStep sess msg).sessionAfter = none ∧
      (∀ w : Nat,
        ((handleCheckinStep sess msg).completedData.bind (fun d => d.weightKg))
            = some w ↔
          (weightMatch (jsTrim msg) = some w ∧ 3000 ≤ w ∧ w ≤ 30000)) := by
  intro sess msg hstep hnone
  obtain ⟨pid, phone, st, d, t0⟩ := sess
  simp only at hstep hnone
  subst hstep
  have hred : handleCheckinStep ⟨pid, phone, CheckinStep.waiting_weight, d, t0⟩ msg
      = { handled := true, sessionAfter := none,
          completedData := some
            { shakeAm := (checkinWeightData d msg).shakeAm.getD false
              shakePm := (checkinWeightData d msg).shakePm.getD false
              hydrationOk := (checkinWeightData d msg).hydrationOk.getD false
              supplementOk := (checkinWeightData d msg).supplementOk.getD false
              weightKg := (checkinWeightData d msg).weightKg },
          reprompted := false } := by
    unfold handleCheckinStep
    rw [if_neg (by simp)]
  rw [hred]
  refine ⟨rfl, rfl, fun w => ?_⟩
  exact checkinWeightData_weightKg d msg hnone w

/-- C8 witness: the reply "68.5" at the weight step stores 68.5 kg
(6850 hundredths); the reply "dia 30" fails the anchored pattern, so the
check-in completes with no weight recorded. -/
theorem C8_witness :
    (handleCheckinStep sessC8ex "68.5").completedData.bind (fun d => d.weightKg)
        = some 6850 ∧
    (handleCheckinStep sessC8ex "dia 30").completedData.bind (fun d => d.weightKg)
        = none ∧
    (handleCheckinStep sessC8ex "dia 30").sessionAfter = none := by
  refine ⟨((C8_weight_step_anchored_pattern sessC8ex "68.5" rfl rfl).2.2 6850).mpr
    ⟨by decide, by decide, by decide⟩, ?_, (C8_weight_step_anchored_pattern sessC8ex "dia 30" rfl rfl).2.1⟩
  rcases hx : (handleCheckinStep sessC8ex "dia 30").completedData.bind
      (fun d => d.weightKg) with _ | v
  · rfl
  · exfalso
    have := ((C8_weight_step_anchored_pattern sessC8ex "dia 30" rfl rfl).2.2 v).mp hx
    have hnone : weightMatch (jsTrim "dia 30") = none := by decide
    rw [hnone] at this
    cases this.1

/-- C10: at every boolean check-in step the stored answer is exactly the
yes-keyword substring test, regardless of whether a no keyword also
occurs in the reply. -/
theorem C10_bool_steps_store_isYes :
    ∀ (sess : CheckinSession) (msg : String),
      (checkinIsYes msg = true ∨ checkinIsNo msg = true) →
      ((sess.step = CheckinStep.waiting_shake_am →
        (handleCheckinStep sess msg).sessionAfter = some { sess with
          data := { sess.data with shakeAm := some (checkinIsYes msg) },
          step := CheckinStep.waiting_shake_pm }) ∧
       (sess.step = CheckinStep.waiting_shake_pm →
        (handleCheckinStep sess msg).sessionAfter = some { sess with
          data := { sess.data with shakePm := some (checkinIsYes msg) },
          step := CheckinStep.waiting_hydration }) ∧
       (sess.step = CheckinStep.waiting_hydration →
        (handleCheckinStep sess msg).sessionAfter = some { sess with
          data := { sess.data with hydrationOk := some (checkinIsYes msg) },
          step := CheckinStep.waiting_supplement }) ∧
       (sess.step = CheckinStep.waiting_supplement →
        (handleCheckinStep sess msg).sessionAfter = some { sess with
          data := { sess.data with supplementOk := some (checkinIsYes msg) },
          step := CheckinStep.waiting_weight })) := by
  intro sess msg h
  refine ⟨fun hstep => ?_, fun hstep => ?_, fun hstep => ?_, fun hstep => ?_⟩ <;>
    (obtain ⟨pid, phone, st, d, t0⟩ := sess
     simp only at hstep
     subst hstep
     unfold handleCheckinStep
     rw [if_neg (fun hcon => h.elim (fun hy => hcon.1 hy) (fun hn => hcon.2.1 hn))])

/-- C10 witness: "não tomei" contains the no keyword "não" but also the
yes keyword "tomei"; at the shake-AM step it is recorded as yes. -/
theorem C10_witness :
    checkinIsNo "não tomei" = true ∧
    (handleCheckinStep sessC10ex "não tomei").sessionAfter = some { sessC10ex with
      data := { sessC10ex.data with shakeAm := some true },
      step := CheckinStep.waiting_shake_pm } := by
  constructor
  · decide
  · have h := (C10_bool_steps_store_isYes sessC10ex "não tomei"
      (Or.inl (by decide))).1 rfl
    rw [show checkinIsYes "não tomei" = true from by decide] at h
    exact h

/-- Each queue transition preserves the FIFO/single-consumer invariant. -/
theorem QStep_inv {a b : QState} (hstep : QStep a b)
    (ih1 : a.running.length ≤ 1) (ih2 : a.log ++ a.pending = a.enqueued)
    (ih3 : a.started.Sublist a.log) :
    b.running.length ≤ 1 ∧ b.log ++ b.pending = b.enqueued ∧
    b.started.Sublist b.log := by
  cases hstep with
  | enq i =>
    refine ⟨by simpa using ih1, ?_, by simpa using ih3⟩
    show a.log ++ (a.pending ++ [i]) = a.enqueued ++ [i]
    rw [← List.append_assoc, ih2]
  | dispatchOk i rest hrun hpend =>
    refine ⟨by simp, ?_, ?_⟩
    · show (a.log ++ [i]) ++ rest = a.enqueued
      rw [List.append_assoc]
      rw [hpend] at ih2
      simpa using ih2
    · exact List.Sublist.append ih3 (List.Sublist.refl [i])
  | dispatchDrop i rest hrun hpend =>
    refine ⟨by simpa using ih1, ?_, ?_⟩
    · show (a.log ++ [i]) ++ rest = a.enqueued
      rw [List.append_assoc]
      rw [hpend] at ih2
      simpa using ih2
    · exact ih3.trans (List.sublist_append_left a.log [i])
  | complete i hrun =>
    exact ⟨by simp, by simpa using ih2, by simpa using ih3⟩

/-- C4: in every reachable queue state at most one send action is in
flight (the processor awaits each action, or drops it on rate limit,
before shifting the next item), the dequeue log followed by the pending
items is exactly the enqueue history (so actions are dispatched in strict
enqueue order, FIFO, with the log a prefix of the history), and the
actions actually started form an order-preserving subsequence of that
log. -/
theorem C4_queue_fifo_single_consumer :
    ∀ s : QState, QReach s →
      s.running.length ≤ 1 ∧
      s.log ++ s.pending = s.enqueued ∧
      s.started.Sublist s.log := by
  intro s h
  induction h with
  | refl => exact ⟨by simp [initQ], by simp [initQ], by simp [initQ]⟩
  | tail hreach hstep ih => exact QStep_inv hstep ih.1 ih.2.1 ih.2.2

/-- C4 witness: the theorem applied to the state reached by enqueuing
items 0, 1, 2, running 0 and 1 to completion and dispatching 2 — the
actions started in exactly enqueue order. -/
theorem C4_witness :
    qWitState.running.length ≤ 1 ∧
    qWitState.log ++ qWitState.pending = qWitState.enqueued ∧
    qWitState.started.Sublist qWitState.log := by
  refine C4_queue_fifo_single_consumer qWitState ?_
  have h1 : QStep initQ ⟨[0], [], [], [], [0]⟩ := QStep.enq initQ 0
  have h2 : QStep ⟨[0], [], [], [], [0]⟩ ⟨[0, 1], [], [], [], [0, 1]⟩ :=
    QStep.enq _ 1
  have h3 : QStep ⟨[0, 1], [], [], [], [0, 1]⟩
      ⟨[0, 1, 2], [], [], [], [0, 1, 2]⟩ := QStep.enq _ 2
  have h4 : QStep ⟨[0, 1, 2], [], [], [], [0, 1, 2]⟩
      ⟨[1, 2], [0], [0], [0], [0, 1, 2]⟩ := QStep.dispatchOk _ 0 [1, 2] rfl rfl
  have h5 : QStep ⟨[1, 2], [0], [0], [0], [0, 1, 2]⟩
      ⟨[1, 2], [], [0], [0], [0, 1, 2]⟩ := QStep.complete _ 0 rfl
  have h6 : QStep ⟨[1, 2], [], [0], [0], [0, 1, 2]⟩
      ⟨[2], [1], [0, 1], [0, 1], [0, 1, 2]⟩ := QStep.dispatchOk _ 1 [2] rfl rfl
  have h7 : QStep ⟨[2], [1], [0, 1], [0, 1], [0, 1, 2]⟩
      ⟨[2], [], [0, 1], [0, 1], [0, 1, 2]⟩ := QStep.complete _ 1 rfl
  have h8 : QStep ⟨[2], [], [0, 1], [0, 1], [0, 1, 2]⟩ qWitState :=
    QStep.dispatchOk _ 2 [] rfl rfl
  exact Relation.ReflTransGen.tail (Relation.ReflTransGen.tail
    (Relation.ReflTransGen.tail (Relation.ReflTransGen.tail
      (Relation.ReflTransGen.tail (Relation.ReflTransGen.tail
        (Relation.ReflTransGen.tail (Relation.ReflTransGen.tail
          Relation.ReflTransGen.refl h1) h2) h3) h4) h5) h6) h7) h8

/-- C7: `generateReply` retries the LLM call up to three times; when all
three attempts fail it performs exactly the backoff sleeps 2000 ms and
4000 ms and returns the literal fallback reply (it never throws: the
result is always either a trimmed successful completion — from the first
attempt that succeeds — or the fallback string). -/
theorem C7_generateReply_retry_and_fallback :
    (∀ attempts : Nat → Option String,
      attempts 1 = none → attempts 2 = none → attempts 3 = none →
      generateReply attempts = (FALLBACK_REPLY, [2000, 4000])) ∧
    (∀ attempts : Nat → Option String,
      (generateReply attempts).1 = FALLBACK_REPLY ∨
      ∃ k t, 1 ≤ k ∧ k ≤ 3 ∧ attempts k = some t ∧
        (generateReply attempts).1 = jsTrim t ∧
        ∀ j, 1 ≤ j → j < k → attempts j = none) := by
  constructor
  · intro attempts h1 h2 h3
    simp [generateReply, MAX_RETRIES, generateReplyLoop, h1, h2, h3]
  · intro attempts
    rcases ha1 : attempts 1 with _ | t1
    · rcases ha2 : attempts 2 with _ | t2
      · rcases ha3 : attempts 3 with _ | t3
        · left
          simp [generateReply, MAX_RETRIES, generateReplyLoop, ha1, ha2, ha3]
        · right
          refine ⟨3, t3, by norm_num, by norm_num, ha3, ?_, ?_⟩
          · simp [generateReply, MAX_RETRIES, generateReplyLoop, ha1, ha2, ha3]
          · intro j hj1 hj3
            interval_cases j
            · exact ha1
            · exact ha2
      · right
        refine ⟨2, t2, by norm_num, by norm_num, ha2, ?_, ?_⟩
        · simp [generateReply, MAX_RETRIES, generateReplyLoop, ha1, ha2]
        · intro j hj1 hj2
          interval_cases j
          exact ha1
    · right
      refine ⟨1, t1, le_refl 1, by norm_num, ha1, ?_, ?_⟩
      · simp [generateReply, MAX_RETRIES, generateReplyLoop, ha1]
      · intro j hj1 hj2
        omega

/-- C7 witness: the theorem applied to an oracle whose every attempt
fails. -/
theorem C7_witness :
    generateReply (fun _ => none) = (FALLBACK_REPLY, [2000, 4000]) :=
  C7_generateReply_retry_and_fallback.1 (fun _ => none) rfl rfl rfl

theorem addSignal_proj (m : LeadMemory) (sig : String) :
    (addSignal m sig).1.handoffScore = m.handoffScore ∧
    (addSignal m sig).1.context = m.context ∧
    (addSignal m sig).1.spinStage = m.spinStage := by
  by_cases h : sig ∈ m.signals <;> simp [addSignal, h]

theorem foldl_addSignal_proj (sigs : List ConversationSignal) :
    ∀ m : LeadMemory,
      ((sigs.foldl (fun m s => (addSignal m (signalName s)).1) m).handoffScore
          = m.handoffScore) ∧
      ((sigs.foldl (fun m s => (addSignal m (signalName s)).1) m).context
          = m.context) ∧
      ((sigs.foldl (fun m s => (addSignal m (signalName s)).1) m).spinStage
          = m.spinStage) := by
  induction sigs with
  | nil => intro m; exact ⟨rfl, rfl, rfl⟩
  | cons a as ih =>
    intro m
    obtain ⟨s1, s2, s3⟩ := addSignal_proj m (signalName a)
    obtain ⟨i1, i2, i3⟩ := ih ((addSignal m (signalName a)).1)
    exact ⟨by rw [List.foldl_cons, i1, s1],
           by rw [List.foldl_cons, i2, s2],
           by rw [List.foldl_cons, i3, s3]⟩

theorem pmScore_eq (mem : LeadMemory) (msg : String) (now : Nat) :
    pmScore mem msg now
      = calculateHandoffScore mem.handoffScore (detectConversationSignals msg) := by
  unfold pmScore pmM2
  rw [(foldl_addSignal_proj _ _).1]
  rfl

theorem pmM3_context (mem : LeadMemory) (msg : String) (now : Nat) :
    (pmM3 mem msg now).context = mem.context := by
  unfold pmM3
  rw [show ((updateHandoffScore (pmM2 mem msg now) (pmScore mem msg now)).1).context
        = (pmM2 mem msg now).context from rfl]
  unfold pmM2
  rw [(foldl_addSignal_proj _ _).2.1]
  rfl

theorem pmM3_spinStage (mem : LeadMemory) (msg : String) (now : Nat) :
    (pmM3 mem msg now).spinStage = mem.spinStage := by
  unfold pmM3
  rw [show ((updateHandoffScore (pmM2 mem msg now) (pmScore mem msg now)).1).spinStage
        = (pmM2 mem msg now).spinStage from rfl]
  unfold pmM2
  rw [(foldl_addSignal_proj _ _).2.2]
  rfl

theorem pmM5_commitment (m3 : LeadMemory) (msg : String) (now : Nat) :
    (pmM5 m3 msg now).context.commitment_accepted
      = m3.context.commitment_accepted := by
  simp only [pmM5]
  split_ifs <;> rfl

theorem pmM6_commitment_preserved (m5 : LeadMemory)
    (sigs : List ConversationSignal) (now : Nat)
    (h : m5.context.commitment_accepted = some true) :
    (pmM6 m5 sigs now).context.commitment_accepted = some true := by
  unfold pmM6
  split_ifs with hA
  · rfl
  · exact h

theorem pmNormal_memory (llm : Prompt → String) (m3 : LeadMemory)
    (sigs : List ConversationSignal) (msg : String) (S : Int) (now : Nat) :
    (pmNormal llm m3 sigs msg S now).2.1
      = pmM8 (pmM7 llm (pmM6 (pmM5 m3 msg now) sigs now) now) sigs msg now := rfl

theorem pmM8_context (m7 : LeadMemory) (sigs : List ConversationSignal)
    (msg : String) (now : Nat) :
    (pmM8 m7 sigs msg now).context = m7.context := by
  unfold pmM8
  split_ifs <;> rfl

theorem pmNormal_commitment_preserved (llm : Prompt → String) (m3 : LeadMemory)
    (sigs : List ConversationSignal) (msg : String) (S : Int) (now : Nat)
    (h : m3.context.commitment_accepted = some true) :
    (pmNormal llm m3 sigs msg S now).2.1.context.commitment_accepted
      = some true := by
  rw [pmNormal_memory, pmM8_context]
  rw [show (pmM7 llm (pmM6 (pmM5 m3 msg now) sigs now) now).context
        = (pmM6 (pmM5 m3 msg now) sigs now).context from rfl]
  refine pmM6_commitment_preserved _ _ _ ?_
  rw [pmM5_commitment]
  exact h

theorem processMessage_commitment_preserved (llm : Prompt → String)
    (mem : LeadMemory) (msg : String) (now : Nat)
    (h : mem.context.commitment_accepted = some true) :
    (processMessage llm mem msg now).1.handoffTriggered = false ∧
    (processMessage llm mem msg now).2.1.context.commitment_accepted
      = some true := by
  have hdisp : processMessage llm mem msg now
      = pmNormal llm (pmM3 mem msg now) (detectConversationSignals msg) msg
          (pmScore mem msg now) now := by
    unfold processMessage
    rw [if_neg (fun hci => hci.2 (by rw [pmM3_context]; exact h))]
  rw [hdisp]
  exact ⟨rfl, pmNormal_commitment_preserved llm _ _ msg _ now
    (by rw [pmM3_context]; exact h)⟩

theorem processThread_no_handoff (llm : Prompt → String) (msgs : List String) :
    ∀ (mem : LeadMemory) (now : Nat),
      mem.context.commitment_accepted = some true →
      ∀ r ∈ (processThread llm mem msgs now).1, r.handoffTriggered = false := by
  induction msgs with
  | nil => intro mem now _ r hr; simp [processThread] at hr
  | cons msg rest ih =>
    intro mem now h r hr
    simp only [processThread] at hr
    rcases List.mem_cons.mp hr with rfl | hr2
    · exact (processMessage_commitment_preserved llm mem msg now h).1
    · exact ih _ now (processMessage_commitment_preserved llm mem msg now h).2 r hr2

theorem processMessage_pos_eq (llm : Prompt → String) (mem : LeadMemory)
    (msg : String) (now : Nat)
    (h0 : shouldHandoff (calculateHandoffScore mem.handoffScore
        (detectConversationSignals msg)) = true ∧
      mem.context.commitment_accepted ≠ some true) :
    processMessage llm mem msg now
      = pmShortCircuit llm (pmM3 mem msg now) (pmScore mem msg now) now := by
  unfold processMessage
  rw [if_pos ⟨by rw [pmScore_eq]; exact h0.1, by rw [pmM3_context]; exact h0.2⟩]

theorem processMessage_neg_eq (llm : Prompt → String) (mem : LeadMemory)
    (msg : String) (now : Nat)
    (h0 : ¬(shouldHandoff (calculateHandoffScore mem.handoffScore
        (detectConversationSignals msg)) = true ∧
      mem.context.commitment_accepted ≠ some true)) :
    processMessage llm mem msg now
      = pmNormal llm (pmM3 mem msg now) (detectConversationSignals msg) msg
          (pmScore mem msg now) now := by
  unfold processMessage
  rw [if_neg (fun hci => h0 ⟨by rw [← pmScore_eq mem msg now]; exact hci.1,
    by rw [← pmM3_context mem msg now]; exact hci.2⟩)]

/-- C1: the handoff short-circuit fires exactly when the updated handoff
score reaches the threshold and `commitment_accepted` is not `true`; when
it fires, the result is the dedicated handoff reply with `nextAction =
handoff`, an empty context-update, a `negotiating` persist carrying the
handoff flag, and the memory's context and stage untouched (context
extraction, stage-prompt building and stage advancement skipped); when it
does not fire the persist does not carry the handoff flag; and once
`commitment_accepted` is `true`, no message of any later thread
re-triggers the short-circuit. -/
theorem C1_handoff_short_circuit_iff :
    ∀ (llm : Prompt → String) (mem : LeadMemory) (msg : String) (now : Nat),
      ((processMessage llm mem msg now).1.handoffTriggered = true ↔
        (shouldHandoff (calculateHandoffScore mem.handoffScore
            (detectConversationSignals msg)) = true ∧
          mem.context.commitment_accepted ≠ some true)) ∧
      ((processMessage llm mem msg now).1.handoffTriggered = true →
        (processMessage llm mem msg now).1.nextAction = NextAction.handoff ∧
        (processMessage llm mem msg now).1.reply
            = llm (Prompt.special SpecialTag.HANDOFF_READY) ∧
        (processMessage llm mem msg now).1.contextUpdated = {} ∧
        (processMessage llm mem msg now).2.1.context = mem.context ∧
        (processMessage llm mem msg now).2.1.spinStage = mem.spinStage ∧
        (processMessage llm mem msg now).2.2
            = { status := "negotiating", handoff_triggered := true }) ∧
      ((processMessage llm mem msg now).1.handoffTriggered = false →
        (processMessage llm mem msg now).2.2
            = { status := "active", handoff_triggered := false }) ∧
      (mem.context.commitment_accepted = some true →
        ∀ msgs : List String, ∀ r ∈ (processThread llm mem msgs now).1,
          r.handoffTriggered = false) := by
  intro llm mem msg now
  refine ⟨?_, ?_, ?_,
    fun hcomm msgs => processThread_no_handoff llm msgs mem now hcomm⟩
  · by_cases h0 : shouldHandoff (calculateHandoffScore mem.handoffScore
        (detectConversationSignals msg)) = true ∧
        mem.context.commitment_accepted ≠ some true
    · rw [processMessage_pos_eq llm mem msg now h0]
      exact iff_of_true rfl h0
    · rw [processMessage_neg_eq llm mem msg now h0]
      exact iff_of_false
        (fun hft => absurd (show false = true from hft) (by decide)) h0
  · by_cases h0 : shouldHandoff (calculateHandoffScore mem.handoffScore
        (detectConversationSignals msg)) = true ∧
        mem.context.commitment_accepted ≠ some true
    · rw [processMessage_pos_eq llm mem msg now h0]
      have hc : (pmShortCircuit llm (pmM3 mem msg now)
          (pmScore mem msg now) now).2.1.context = (pmM3 mem msg now).context := rfl
      have hs : (pmShortCircuit llm (pmM3 mem msg now)
          (pmScore mem msg now) now).2.1.spinStage
            = (pmM3 mem msg now).spinStage := rfl
      exact fun _ => ⟨rfl, rfl, rfl, by rw [hc, pmM3_context],
        by rw [hs, pmM3_spinStage], rfl⟩
    · rw [processMessage_neg_eq llm mem msg now h0]
      exact fun hft => absurd (show false = true from hft) (by decide)
  · by_cases h0 : shouldHandoff (calculateHandoffScore mem.handoffScore
        (detectConversationSignals msg)) = true ∧
        mem.context.commitment_accepted ≠ some true
    · rw [processMessage_pos_eq llm mem msg now h0]
      exact fun hfalse => absurd (show true = false from hfalse) (by decide)
    · rw [processMessage_neg_eq llm mem msg now h0]
      exact fun _ => rfl

/-- C1 witness: with base score 60 and the message "quanto custa"
(+25, crossing 75) and no accepted commitment, the short-circuit fires
with the handoff action. -/
theorem C1_witness :
    (processMessage (fun _ => "resp") memC1ex "quanto custa" 1).1.handoffTriggered
        = true ∧
    (processMessage (fun _ => "resp") memC1ex "quanto custa" 1).1.nextAction
        = NextAction.handoff := by
  have h := C1_handoff_short_circuit_iff (fun _ => "resp") memC1ex "quanto custa" 1
  have ht := h.1.mpr ⟨by decide, by decide⟩
  exact ⟨ht, (h.2.1 ht).1⟩

end Herbabot
